import Mathlib

/-!
Verification of the tabular onboarding verifier (`app.py`).

The Python program is shallowly embedded: spreadsheet cells are either
missing (`NaN`) or text, sheets are grids of cells, and every logic
function of the source (`normalize_name`, `get_visible_sheet_names`,
`get_clean_data`, `check_restaurant_logic`, and the per-sheet validation
blocks of the main script) is translated into an executable Lean
definition.  Strings are `List Char`; pandas/regex operations used by the
source (whitespace collapse, strip, case-insensitive containment,
`re.sub` literal removal, `str.replace`) are modelled character by
character with structural recursion so that every definition evaluates
by `decide`.
-/

namespace YocoVerifier

/-- Python regex `\s` character class (also what `str.strip` removes for
the ASCII inputs handled here). -/
def isSpaceChar (c : Char) : Bool :=
  c == ' ' || c == '\t' || c == '\n' || c == '\r' || c == '\x0b' || c == '\x0c'

/-- Case-insensitive character comparison (ASCII lowering, as Python
`str.lower` on the identifiers used by the source). -/
def eqCI (a b : Char) : Bool := a.toLower == b.toLower

/-- Case-sensitive character comparison. -/
def eqCS (a b : Char) : Bool := a == b

/-- Test whether `pat` is a prefix of `s`, characters compared with `eqc`. -/
def isPrefixW (eqc : Char → Char → Bool) : List Char → List Char → Bool
  | [], _ => true
  | _ :: _, [] => false
  | a :: ps, b :: bs => eqc a b && isPrefixW eqc ps bs

/-- Test whether `pat` occurs somewhere inside `s` (Python substring
containment, and the pandas contains test on the literal marker phrases
of the source). -/
def containsW (eqc : Char → Char → Bool) (pat : List Char) : List Char → Bool
  | [] => isPrefixW eqc pat []
  | b :: bs => isPrefixW eqc pat (b :: bs) || containsW eqc pat bs

/-- Fuel-indexed left-to-right, non-overlapping removal of every
occurrence of `pat`: the semantics of re.sub with a literal pattern and
empty replacement, and of str.replace deleting a substring. -/
def subAllFuel (eqc : Char → Char → Bool) (pat : List Char) :
    Nat → List Char → List Char
  | 0, s => s
  | _ + 1, [] => []
  | f + 1, c :: cs =>
    if !pat.isEmpty && isPrefixW eqc pat (c :: cs) then
      subAllFuel eqc pat f (cs.drop (pat.length - 1))
    else
      c :: subAllFuel eqc pat f cs

/-- Remove every occurrence of `pat` from `s`, scanning left to right. -/
def subAll (eqc : Char → Char → Bool) (pat s : List Char) : List Char :=
  subAllFuel eqc pat s.length s

/-- Left strip: drop leading whitespace (`str.lstrip`). -/
def lstripChars (s : List Char) : List Char := s.dropWhile isSpaceChar

/-- Right strip: drop trailing whitespace (`str.rstrip`). -/
def rstripChars (s : List Char) : List Char :=
  (s.reverse.dropWhile isSpaceChar).reverse

/-- Python `str.strip()`. -/
def stripChars (s : List Char) : List Char := rstripChars (lstripChars s)

/-- Collapse every run of whitespace to a single space — the pandas
regex replacement of one-or-more whitespace used by the header scan.
The flag records whether the previous character belonged to a run. -/
def collapseWSAux (prevSpace : Bool) : List Char → List Char
  | [] => []
  | c :: cs =>
    if isSpaceChar c then
      if prevSpace then collapseWSAux true cs
      else ' ' :: collapseWSAux true cs
    else c :: collapseWSAux false cs

/-- Collapse whitespace runs to single spaces. -/
def collapseWS (s : List Char) : List Char := collapseWSAux false s

/-- Python `str.upper` (ASCII). -/
def upperL (s : List Char) : List Char := s.map Char.toUpper

/-- Python `str.isdigit` restricted to ASCII digits: non-empty and all
characters in `0`..`9`. -/
def isDigits (s : List Char) : Bool :=
  !s.isEmpty && s.all (fun c => decide ('0' ≤ c) && decide (c ≤ '9'))

/-- The apostrophe character, written by code point. -/
def apos : Char := Char.ofNat 39

deriving instance DecidableEq for Except

/-- A spreadsheet cell: missing (pandas `NaN`) or text. -/
inductive Cell where
  | none
  | str (s : List Char)
deriving DecidableEq

/-- Python `str(value)` on a cell: `str(nan)` is `"nan"`. -/
def cellToStr : Cell → List Char
  | Cell.none => "nan".data
  | Cell.str s => s

/-- The raw text of a cell, empty for a missing cell (used only where a
missing cell has already been excluded). -/
def cellRaw : Cell → List Char
  | Cell.none => []
  | Cell.str s => s

/-- The case-insensitive raw-ingredient tag removed by `normalize_name`. -/
def rawTagStr : List Char := "(RAW)".data

/-- The case-insensitive manufactured-item tag removed by `normalize_name`. -/
def manTagStr : List Char := "(MAN)".data

/-- The string path of the normalizer: strip, remove all
case-insensitive occurrences of the RAW tag then of the MAN tag, strip
again. -/
def normalizeStr (s : List Char) : List Char :=
  stripChars (subAll eqCI manTagStr (subAll eqCI rawTagStr (stripChars s)))

/-- The normalizer of the source: a missing value yields the empty
string, otherwise the string path of `normalizeStr`. -/
def normalize_name (c : Cell) : List Char :=
  match c with
  | Cell.none => []
  | Cell.str s => normalizeStr s

/-- One worksheet: title, visibility flag (whether sheet_state equals
visible), and the raw grid of cells. -/
structure Sheet where
  name : List Char
  visible : Bool
  rows : List (List Cell)
deriving DecidableEq

/-- A workbook is the (ordered) list of its worksheets. -/
abbrev Workbook := List Sheet

/-- Titles of the visible worksheets. -/
def get_visible_sheet_names (wb : Workbook) : List (List Char) :=
  (wb.filter (fun s => s.visible)).map (fun s => s.name)

/-- Python `enumerate` / the positional index pandas assigns when a
sheet is read with `header=None`. -/
def enumF (k : Nat) : List α → List (Nat × α)
  | [] => []
  | x :: xs => (k, x) :: enumF (k + 1) xs

/-- Concatenation of per-element lists (order preserving), used to state
what a validation loop appends. -/
def listJoinMap (f : α → List β) : List α → List β
  | [] => []
  | a :: l => f a ++ listJoinMap f l

/-- Cell access by column position; pandas pads ragged rows with `NaN`. -/
def cellAtIdx (cells : List Cell) (j : Nat) : Cell := cells.getD j Cell.none

/-- A loaded logical table: stripped column names and the surviving data
rows, each carrying its `__excel_row__` coordinate. -/
structure Table where
  cols : List (List Char)
  rows : List (Nat × List Cell)
deriving DecidableEq

/-- One scan row matches when some cell, whitespace-collapsed and
stripped, contains the marker case-insensitively
(`row_str.str.contains(unique_col_identifier, case=False, na=False)`). -/
def rowMatchesMarker (marker : List Char) (row : List Cell) : Bool :=
  row.any (fun c => containsW eqCI marker (stripChars (collapseWS (cellToStr c))))

/-- Indices of the marker-matching rows among the first 50 rows of the
sheet (`matching_rows` of `get_clean_data`). -/
def matchingRows (marker : List Char) (rows : List (List Cell)) : List Nat :=
  ((enumF 0 (rows.take 50)).filter (fun p => rowMatchesMarker marker p.2)).map Prod.fst

/-- The chosen header row: the last matching index, if any exists. -/
def headerRowIdx (marker : List Char) (rows : List (List Cell)) : Option Nat :=
  (matchingRows marker rows).getLast?

/-- Column name pandas assigns from a header cell: missing header cells
become `Unnamed: k`. -/
def headerName (k : Nat) (c : Cell) : List Char :=
  match c with
  | Cell.none => "Unnamed: ".data ++ (Nat.repr k).data
  | Cell.str s => s

/-- Field names of the reloaded frame, whitespace-trimmed
(`df.columns.astype(str).str.strip()`). -/
def headerCols (headerRow : List Cell) : List (List Char) :=
  (enumF 0 headerRow).map (fun p => stripChars (headerName p.1 p.2))

/-- Data rows below the header with their Excel coordinates:
`__excel_row__ = dataset index + header_row_idx + 2`. -/
def enumData (h : Nat) (rows : List (List Cell)) : List (Nat × List Cell) :=
  (enumF 0 (rows.drop (h + 1))).map (fun p => (p.1 + h + 2, p.2))

/-- The placeholder sentinel compared against the uppercased identity
value. -/
def exampleStr : List Char := "EXAMPLE".data

/-- Row survival through the three identity filters of `get_clean_data`:
the identity cell is present (`notna`), not whitespace-only after
`strip`, and its uppercased raw text is not exactly `EXAMPLE`. -/
def keepRow (c : Cell) : Bool :=
  !(c == Cell.none) && !((stripChars (cellRaw c)).isEmpty)
    && !(upperL (cellRaw c) == exampleStr)

/-- The identity filter of `get_clean_data`: find the first column whose
lowered name contains the lowered marker; when none exists no filtering
happens at all. -/
def filterRows (marker : List Char) (cols : List (List Char))
    (dataRows : List (Nat × List Cell)) : List (Nat × List Cell) :=
  match cols.findIdx? (fun c => containsW eqCI marker c) with
  | Option.none => dataRows
  | Option.some j => dataRows.filter (fun r => keepRow (cellAtIdx r.2 j))

/-- Error text of a failed header scan. -/
def headerErr (marker : List Char) : List Char :=
  "Could not find header ".data ++ [apos] ++ marker ++ [apos]

/-- Load one sheet: resolve the header row (last marker match wins),
rebuild the field names, enumerate the rows below the header with their
Excel coordinates, and filter placeholder rows on the resolved identity
column. -/
def loadTable (sh : Sheet) (marker : List Char) : Except (List Char) Table :=
  match headerRowIdx marker sh.rows with
  | Option.none => Except.error (headerErr marker)
  | Option.some h =>
    Except.ok ⟨headerCols (sh.rows.getD h []),
      filterRows marker (headerCols (sh.rows.getD h [])) (enumData h sh.rows)⟩

/-- Worksheet lookup by title. -/
def findSheet (wb : Workbook) (nm : List Char) : Option Sheet :=
  wb.find? (fun s => s.name == nm)

/-- The table loader of the source; a missing sheet surfaces as the
caught-exception error path. -/
def get_clean_data (wb : Workbook) (sheetName marker : List Char) :
    Except (List Char) Table :=
  match findSheet wb sheetName with
  | Option.none => Except.error "Worksheet not found".data
  | Option.some sh => loadTable sh marker

/-- One record of the `error_log`. -/
structure Issue where
  itype : List Char
  sheet : List Char
  rowNo : Option Nat
  issue : List Char
  fix : List Char
deriving DecidableEq

/-- The running state of the main script: `quality_score`, `error_log`,
and `valid_ingredients_set` (a list read only through membership). -/
structure VState where
  score : Int
  errors : List Issue
  valid : List (List Char)
deriving DecidableEq

/-- The initial state: score 100, empty error log, empty valid set. -/
def initState : VState := ⟨100, [], []⟩

def criticalStr : List Char := "Critical".data
def warningStr : List Char := "Warning".data

def noStockIssue : Issue :=
  ⟨criticalStr, "Stock".data, Option.none, "NO STOCK FOUND".data, "Sheet is empty".data⟩

def costIssueOf (rowNo : Nat) : Issue :=
  ⟨criticalStr, "Stock".data, Option.some rowNo, "Missing Cost Price".data,
    "Enter value".data⟩

def noProductsIssue : Issue :=
  ⟨criticalStr, "Products".data, Option.none, "NO PRODUCTS".data, "Sheet empty".data⟩

def missingFieldIssue (rowNo : Nat) (col : List Char) : Issue :=
  ⟨criticalStr, "Products".data, Option.some rowNo, "Missing ".data ++ col,
    "Required Field".data⟩

def ghostIssueOf (rowNo : Nat) (c : Cell) : Issue :=
  ⟨criticalStr, "Recipes".data, Option.some rowNo,
    "Ghost Item: ".data ++ [apos] ++ cellToStr c ++ [apos],
    "Not found in Stock/Manufactured".data⟩

def pinIssueOf (rowNo : Nat) (code : List Char) : Issue :=
  ⟨warningStr, "Employees".data, Option.some rowNo,
    "Invalid PIN ".data ++ [apos] ++ code ++ [apos], "Must be 4 digits".data⟩

/-- Apply a burst of weighted issues: each one decrements the score by
its penalty and appends to the error log, in order. -/
def applyIssues (st : VState) (ws : List (Int × Issue)) : VState :=
  ws.foldl (fun s wi => { s with score := s.score - wi.1, errors := s.errors ++ [wi.2] }) st

/-- A per-row validation loop (`for _, row in df.iterrows(): ...`). -/
def runRows (f : Nat × List Cell → List (Int × Issue)) (st : VState)
    (rows : List (Nat × List Cell)) : VState :=
  rows.foldl (fun s r => applyIssues s (f r)) st

def stockSheetName : List Char := "Stock Items(RAW MATERIALS)".data
def stockMarkerName : List Char := "RAW MATERIAL Product Name".data
def manSheetName : List Char := "MANUFACTURED PRODUCTS".data
def manMarkerName : List Char := "MANUFACTURED Product Name".data
def prodSheetName : List Char := "Products(Finished Goods)".data
def prodMarkerName : List Char := "Product Name".data
def recSheetName : List Char := "Products Recipes".data
def recMarkerName : List Char := "RAW MATERIALS".data
def primaryIngColName : List Char :=
  "RAW MATERIALS / MANUFACTURED PRODUCT NAME".data
def modSheetName1 : List Char := "Modifers".data
def modSheetName2 : List Char := "Modifiers".data
def modMarkerName : List Char := "Modifier Group Name".data
def empSheetName : List Char := "Employee List".data
def empMarkerName : List Char := "Employee Name".data
def loginColName : List Char := "Login Code".data
def costPriceName : List Char := "Cost Price".data
def dotZeroStr : List Char := ".0".data

/-- The identifiers one trusted table contributes to the valid-name
set: each present cell of the identity column, normalized. -/
def tableNames (j : Nat) (rows : List (Nat × List Cell)) : List (List Char) :=
  rows.filterMap (fun r =>
    match cellAtIdx r.2 j with
    | Cell.none => Option.none
    | Cell.str s => Option.some (normalizeStr s))

/-- The Cost Price loop body: a missing value is a Critical issue with
penalty 10; nothing else is inspected. -/
def costIssues (k : Nat) (r : Nat × List Cell) : List (Int × Issue) :=
  if cellAtIdx r.2 k = Cell.none then [(10, costIssueOf r.1)] else []

/-- Block 1 (Stock): an empty table zeroes the score; otherwise the
stock names feed the valid set and Cost Price is checked when present.
The unguarded exact column access `df_stock["RAW MATERIAL Product Name"]`
raises `KeyError` when absent, modelled as `Option.none`. -/
def stockBlock (wb : Workbook) (st : VState) : Option VState :=
  if stockSheetName ∈ get_visible_sheet_names wb then
    match get_clean_data wb stockSheetName stockMarkerName with
    | Except.error _ => Option.some st
    | Except.ok tbl =>
      if tbl.rows.isEmpty then
        Option.some { st with score := 0, errors := st.errors ++ [noStockIssue] }
      else
        match tbl.cols.findIdx? (fun c => c == stockMarkerName) with
        | Option.none => Option.none
        | Option.some j =>
          let st1 := { st with valid := st.valid ++ tableNames j tbl.rows }
          match tbl.cols.findIdx? (fun c => c == costPriceName) with
          | Option.none => Option.some st1
          | Option.some k => Option.some (runRows (costIssues k) st1 tbl.rows)
  else Option.some st

/-- Block 2 (Manufactured): a loaded, non-empty table only feeds the
valid set; the exact column access is likewise unguarded. -/
def manBlock (wb : Workbook) (st : VState) : Option VState :=
  if manSheetName ∈ get_visible_sheet_names wb then
    match get_clean_data wb manSheetName manMarkerName with
    | Except.error _ => Option.some st
    | Except.ok tbl =>
      if tbl.rows.isEmpty then Option.some st
      else
        match tbl.cols.findIdx? (fun c => c == manMarkerName) with
        | Option.none => Option.none
        | Option.some j =>
          Option.some { st with valid := st.valid ++ tableNames j tbl.rows }
  else Option.some st

/-- The four required product fields. -/
def requiredCols : List (List Char) :=
  ["Selling Price (incl vat)".data, "Menu".data, "Menu Category".data,
    "Preparation Locations".data]

/-- Product-row presence check: for each required column that exists, a
missing or whitespace-only value is a Critical issue. -/
def prodRowIssues (cols : List (List Char)) (r : Nat × List Cell) :
    List (Int × Issue) :=
  listJoinMap (fun colName =>
    match cols.findIdx? (fun c => c == colName) with
    | Option.none => []
    | Option.some j =>
      if cellAtIdx r.2 j = Cell.none
          ∨ (stripChars (cellToStr (cellAtIdx r.2 j))).isEmpty then
        [(10, missingFieldIssue r.1 colName)]
      else []) requiredCols

/-- Block 3 (Products): an empty table zeroes the score, otherwise the
presence checks run; the loaded frame is kept for the logic pass
(`df_prod_global`). -/
def prodBlock (wb : Workbook) (st : VState) : VState × Option Table :=
  if prodSheetName ∈ get_visible_sheet_names wb then
    match get_clean_data wb prodSheetName prodMarkerName with
    | Except.error _ => (st, Option.none)
    | Except.ok tbl =>
      if tbl.rows.isEmpty then
        ({ st with score := 0, errors := st.errors ++ [noProductsIssue] },
          Option.some tbl)
      else (runRows (prodRowIssues tbl.cols) st tbl.rows, Option.some tbl)
  else (st, Option.none)

/-- Resolution of the recipes reference column: the fixed name when
present, else the first column containing both `RAW MATERIAL` and `NAME`
uppercased; when neither exists the whole check is skipped. -/
def resolveIngColIdx (cols : List (List Char)) : Option Nat :=
  if primaryIngColName ∈ cols then
    cols.findIdx? (fun c => c == primaryIngColName)
  else
    match (cols.filter (fun c =>
        containsW eqCS "RAW MATERIAL".data (upperL c)
          && containsW eqCS "NAME".data (upperL c))).head? with
    | Option.none => Option.none
    | Option.some cand => cols.findIdx? (fun c => c == cand)

/-- The recipes loop body: a non-empty normalized reference absent from
the valid set is a Critical ghost issue carrying the original text. -/
def ghostIssues (valid : List (List Char)) (j : Nat) (r : Nat × List Cell) :
    List (Int × Issue) :=
  if normalize_name (cellAtIdx r.2 j) ≠ []
      ∧ normalize_name (cellAtIdx r.2 j) ∉ valid then
    [(10, ghostIssueOf r.1 (cellAtIdx r.2 j))]
  else []

/-- Block 4 (Recipes): the ghost-reference loop runs only when the
reference column resolved and the valid set is non-empty
(`if col_ing in df_rec.columns and valid_ingredients_set:`). -/
def recipesBlock (wb : Workbook) (st : VState) : VState :=
  if recSheetName ∈ get_visible_sheet_names wb then
    match get_clean_data wb recSheetName recMarkerName with
    | Except.error _ => st
    | Except.ok tbl =>
      match resolveIngColIdx tbl.cols with
      | Option.none => st
      | Option.some j =>
        if st.valid.isEmpty then st
        else runRows (ghostIssues st.valid j) st tbl.rows
  else st

/-- Block 5 (Modifiers): the table is only loaded (misspelled sheet name
first) for the logic pass; no score or error effect. -/
def loadMod (wb : Workbook) : Option Table :=
  if modSheetName1 ∈ get_visible_sheet_names wb then
    (get_clean_data wb modSheetName1 modMarkerName).toOption
  else if modSheetName2 ∈ get_visible_sheet_names wb then
    (get_clean_data wb modSheetName2 modMarkerName).toOption
  else Option.none

/-- The login code read as text, stripped, with every .0 occurrence
deleted. -/
def pinCode (c : Cell) : List Char :=
  subAll eqCS dotZeroStr (stripChars (cellToStr c))

/-- The login-code loop body: not all-digits or shorter than 4 is a
Warning with penalty 1 and the fixed advice text. -/
def loginIssues (j : Nat) (r : Nat × List Cell) : List (Int × Issue) :=
  if !isDigits (pinCode (cellAtIdx r.2 j))
      || (pinCode (cellAtIdx r.2 j)).length < 4 then
    [(1, pinIssueOf r.1 (pinCode (cellAtIdx r.2 j)))]
  else []

/-- Block 6 (Employees): the PIN check runs when the table loaded and a
`Login Code` column exists. -/
def empBlock (wb : Workbook) (st : VState) : VState :=
  if empSheetName ∈ get_visible_sheet_names wb then
    match get_clean_data wb empSheetName empMarkerName with
    | Except.error _ => st
    | Except.ok tbl =>
      match tbl.cols.findIdx? (fun c => c == loginColName) with
      | Option.none => st
      | Option.some j => runRows (loginIssues j) st tbl.rows
  else st

/-- A logic-pass finding (`logic_issues` entry), carried with its
structured payload. -/
inductive LogicItem where
  | negMargin (item : Cell) (gp : ℚ)
  | lowMargin (item : Cell) (gp : ℚ)
  | sizesAsModifiers (item : Cell)
deriving DecidableEq

/-- Exact-decimal model of Python `float(...)` on the strings reaching
the margin check: optional sign, digits with at most one dot, at least
one digit; anything else raises (is `Option.none`). -/
def pyFloat (s : List Char) : Option ℚ :=
  let t := stripChars s
  let sg : ℚ × List Char :=
    match t with
    | '-' :: r => (-1, r)
    | '+' :: r => (1, r)
    | _ => (1, t)
  let u := sg.2
  let intPart := u.takeWhile (fun c => !(c == '.'))
  let rest := u.dropWhile (fun c => !(c == '.'))
  let digitsToNat : List Char → Nat :=
    fun l => l.foldl (fun n c => 10 * n + (c.toNat - 48)) 0
  if intPart.all (fun c => decide ('0' ≤ c) && decide (c ≤ '9')) then
    match rest with
    | [] =>
      if intPart.isEmpty then Option.none
      else Option.some (sg.1 * (digitsToNat intPart : ℚ))
    | '.' :: frac =>
      if frac.all (fun c => decide ('0' ≤ c) && decide (c ≤ '9'))
          ∧ (intPart ≠ [] ∨ frac ≠ []) then
        Option.some (sg.1 * ((digitsToNat intPart : ℚ)
          + (digitsToNat frac : ℚ) / (10 : ℚ) ^ frac.length))
      else Option.none
    | _ => Option.none
  else Option.none

/-- Margin check of one product row: a missing selling price compares
false against 0 (`nan`), an unparsable value raises and the `except`
skips the row, a missing cost counts as 0 and passes the guard. -/
def marginRowIssues (sellIdx costIdx : Nat) (r : Nat × List Cell) :
    List LogicItem :=
  match cellAtIdx r.2 sellIdx with
  | Cell.none => []
  | Cell.str s =>
    match pyFloat s with
    | Option.none => []
    | Option.some sell =>
      match cellAtIdx r.2 costIdx with
      | Cell.none => []
      | Cell.str cs =>
        match pyFloat cs with
        | Option.none => []
        | Option.some cost =>
          if 0 < sell ∧ 0 < cost then
            let gp := (sell - cost) / sell * 100
            if gp < 0 then [LogicItem.negMargin (cellAtIdx r.2 0) gp]
            else if gp < 15 then [LogicItem.lowMargin (cellAtIdx r.2 0) gp]
            else []
          else []

/-- The costing half of `check_restaurant_logic`. -/
def marginIssues (dfProd : Option Table) : List LogicItem :=
  match dfProd with
  | Option.none => []
  | Option.some tbl =>
    match tbl.cols.findIdx? (fun c => c == "Selling Price (incl vat)".data) with
    | Option.none => []
    | Option.some sellIdx =>
      match tbl.cols.findIdx? (fun c => containsW eqCS costPriceName c) with
      | Option.none => []
      | Option.some costIdx =>
        listJoinMap (marginRowIssues sellIdx costIdx) tbl.rows

/-- A modifier row triggers the sizes warning when its group name
contains SIZE/VOLUME or its options contain SMALL/MEDIUM/LARGE. -/
def modTrigger (mi : Nat) (oi : Option Nat) (r : Nat × List Cell) : Bool :=
  let g := upperL (cellToStr (cellAtIdx r.2 mi))
  let o := match oi with
    | Option.some k => upperL (cellToStr (cellAtIdx r.2 k))
    | Option.none => []
  containsW eqCS "SIZE".data g || containsW eqCS "VOLUME".data g
    || containsW eqCS "SMALL".data o || containsW eqCS "MEDIUM".data o
    || containsW eqCS "LARGE".data o

/-- The modifier half of `check_restaurant_logic`: at most one finding,
for the first triggering row (the loop breaks). -/
def modifierIssues (dfMod : Option Table) : List LogicItem :=
  match dfMod with
  | Option.none => []
  | Option.some tbl =>
    if tbl.rows.isEmpty then []
    else
      match tbl.cols.findIdx? (fun c => containsW eqCS modMarkerName c) with
      | Option.none => []
      | Option.some mi =>
        let oi := tbl.cols.findIdx? (fun c => containsW eqCS "Options".data c)
        match tbl.rows.find? (modTrigger mi oi) with
        | Option.none => []
        | Option.some r => [LogicItem.sizesAsModifiers (cellAtIdx r.2 mi)]

/-- The logic pass of the source over the kept product and modifier
tables. -/
def check_restaurant_logic (dfProd dfMod : Option Table) : List LogicItem :=
  marginIssues dfProd ++ modifierIssues dfMod

/-- Blocks 1–2 in sequence: the state once both trusted source tables
have fed `valid_ingredients_set`. -/
def afterSources (wb : Workbook) : Option VState :=
  match stockBlock wb initState with
  | Option.none => Option.none
  | Option.some st1 => manBlock wb st1

/-- Everything the main script computes besides the logic pass. -/
structure CoreOut where
  st : VState
  dfProd : Option Table
  dfMod : Option Table
deriving DecidableEq

/-- Blocks 1–6 of the main script in source order. -/
def runCore (wb : Workbook) : Option CoreOut :=
  match afterSources wb with
  | Option.none => Option.none
  | Option.some st2 =>
    let pr := prodBlock wb st2
    let st4 := recipesBlock wb pr.1
    let dfMod := loadMod wb
    let st5 := empBlock wb st4
    Option.some ⟨st5, pr.2, dfMod⟩

/-- The displayed outputs of one run. -/
structure Report where
  score : Int
  errors : List Issue
  logic : List LogicItem
deriving DecidableEq

/-- The full run, parameterized by the logic pass so its frame effect
can be stated: no visible sheets stops the app, then blocks 1–6, then
`logic_log = f(df_prod_global, df_mod_global)` and
`quality_score = max(0, int(quality_score))`. -/
def runVerifierWith (f : Option Table → Option Table → List LogicItem)
    (wb : Workbook) : Option Report :=
  if (get_visible_sheet_names wb).isEmpty then Option.none
  else
    match runCore wb with
    | Option.none => Option.none
    | Option.some co =>
      Option.some ⟨max 0 co.st.score, co.st.errors, f co.dfProd co.dfMod⟩

/-- The run as the source composes it. -/
def runVerifier : Workbook → Option Report :=
  runVerifierWith check_restaurant_logic

/-- The empty-stock condition: the stock sheet is visible, loads, and no
row survives filtering. -/
def stockIsEmpty (wb : Workbook) : Bool :=
  decide (stockSheetName ∈ get_visible_sheet_names wb)
    && (match get_clean_data wb stockSheetName stockMarkerName with
      | Except.ok tbl => tbl.rows.isEmpty
      | Except.error _ => false)

/-- The empty-products condition. -/
def prodIsEmpty (wb : Workbook) : Bool :=
  decide (prodSheetName ∈ get_visible_sheet_names wb)
    && (match get_clean_data wb prodSheetName prodMarkerName with
      | Except.ok tbl => tbl.rows.isEmpty
      | Except.error _ => false)

/-! ### Example workbooks used by witnesses and counterexamples -/

/-- A recipes-only workbook: a dependent row `Flour` and an empty
valid-name universe. -/
def wbRecOnly : Workbook :=
  [⟨recSheetName, true, [[Cell.str primaryIngColName], [Cell.str "Flour".data]]⟩]

/-- The same dependent sheet plus the stock sheet hidden: the trusted
source exists but is invisible. -/
def wbHiddenStock : Workbook :=
  [⟨stockSheetName, false, [[Cell.str stockMarkerName], [Cell.str "Flour".data]]⟩,
    ⟨recSheetName, true, [[Cell.str primaryIngColName], [Cell.str "Flour".data]]⟩]

/-- Visible stock (`Flour`) plus recipes referencing `Sugar` (ghost) and
`Flour (RAW)` (resolves after normalization). -/
def wbGhost : Workbook :=
  [⟨stockSheetName, true, [[Cell.str stockMarkerName], [Cell.str "Flour".data]]⟩,
    ⟨recSheetName, true,
      [[Cell.str primaryIngColName], [Cell.str "Sugar".data],
        [Cell.str "Flour (RAW)".data]]⟩]

/-- A stock sheet whose only data row is the placeholder `EXAMPLE`, so
the loaded table is empty. -/
def wbEmptyStock : Workbook :=
  [⟨stockSheetName, true, [[Cell.str stockMarkerName], [Cell.str "EXAMPLE".data]]⟩]

/-- An employee sheet with the non-digit login code `12a`. -/
def wbEmp : Workbook :=
  [⟨empSheetName, true,
    [[Cell.str empMarkerName, Cell.str loginColName],
      [Cell.str "Bob".data, Cell.str "12a".data]]⟩]

/-- A stock sheet whose cost cell holds the text `R 25.50`. -/
def wbCost : Workbook :=
  [⟨stockSheetName, true,
    [[Cell.str stockMarkerName, Cell.str costPriceName],
      [Cell.str "Flour".data, Cell.str "R 25.50".data]]⟩]

/-- A sheet whose header cell matches the marker only after whitespace
collapse, so no reloaded column name contains the marker. -/
def sheetNoTarget : Sheet :=
  ⟨"R".data, true,
    [[Cell.str ("RAW".data ++ ['\n', ' '] ++ "MATERIALS x".data)],
      [Cell.str "EXAMPLE".data], [Cell.none]]⟩

/-- A one-sheet workbook whose identity column holds `EXAMPLES`. -/
def wbExamples : Workbook :=
  [⟨"S".data, true, [[Cell.str prodMarkerName], [Cell.str "EXAMPLES".data]]⟩]

/-- A scan grid with marker occurrences at rows 0 and 2. -/
def headerDemoRows : List (List Cell) :=
  [[Cell.str prodMarkerName], [Cell.str "x".data],
    [Cell.str ("A ".data ++ prodMarkerName)], [Cell.str "y".data]]

/-- A state whose valid-name universe already holds `Flour`. -/
def stWithFlour : VState := ⟨100, [], ["Flour".data]⟩

/-- The recipes table `get_clean_data` loads from `wbGhost`. -/
def tblRecGhost : Table :=
  ⟨[primaryIngColName],
    [(2, [Cell.str "Sugar".data]), (3, [Cell.str "Flour (RAW)".data])]⟩

/-- The employee table loaded from `wbEmp`. -/
def tblEmp : Table :=
  ⟨[empMarkerName, loginColName],
    [(2, [Cell.str "Bob".data, Cell.str "12a".data])]⟩

/-- The stock table loaded from `wbCost`. -/
def tblCost : Table :=
  ⟨[stockMarkerName, costPriceName],
    [(2, [Cell.str "Flour".data, Cell.str "R 25.50".data])]⟩

/-- The table loaded from `sheetNoTarget`: no column name contains the
marker, so every raw row below the header survives. -/
def tblNoTarget : Table :=
  ⟨["RAW".data ++ ['\n', ' '] ++ "MATERIALS x".data],
    [(2, [Cell.str "EXAMPLE".data]), (3, [Cell.none])]⟩

/-- Example rows used to instantiate the row-filter characterization. -/
def demoDataRows : List (Nat × List Cell) :=
  [(2, [Cell.str "EXAMPLES".data]), (3, [Cell.str "EXAMPLE".data]),
    (4, [Cell.str "Burger".data])]

end YocoVerifier

namespace YocoVerifier

/-! ### String-operation lemmas -/

theorem subAllFuel_of_not_contains (eqc : Char → Char → Bool) (pat : List Char)
    (f : Nat) (s : List Char) (h : containsW eqc pat s = false) :
    subAllFuel eqc pat f s = s := by
  induction f generalizing s with
  | zero => rfl
  | succ f ih =>
    cases s with
    | nil => rfl
    | cons c cs =>
      have h2 : isPrefixW eqc pat (c :: cs) = false ∧ containsW eqc pat cs = false := by
        simpa [containsW] using h
      simp [subAllFuel, h2.1, ih cs h2.2]

theorem subAll_of_not_contains (eqc : Char → Char → Bool) (pat s : List Char)
    (h : containsW eqc pat s = false) : subAll eqc pat s = s :=
  subAllFuel_of_not_contains eqc pat s.length s h

theorem dropWhile_dropWhile (p : α → Bool) (l : List α) :
    (l.dropWhile p).dropWhile p = l.dropWhile p := by
  induction l with
  | nil => rfl
  | cons c cs ih =>
    by_cases hc : p c = true
    · simp [List.dropWhile_cons, hc, ih]
    · simp [List.dropWhile_cons, hc]

theorem lstrip_idem (s : List Char) :
    lstripChars (lstripChars s) = lstripChars s :=
  dropWhile_dropWhile isSpaceChar s

theorem rstrip_idem (s : List Char) :
    rstripChars (rstripChars s) = rstripChars s := by
  unfold rstripChars
  rw [List.reverse_reverse, dropWhile_dropWhile]

theorem rstrip_prefix_self (t : List Char) : rstripChars t <+: t := by
  unfold rstripChars
  have h := List.dropWhile_suffix (l := t.reverse) isSpaceChar
  have h2 : (t.reverse.dropWhile isSpaceChar).reverse <+: t.reverse.reverse :=
    List.reverse_prefix.mpr h
  simpa using h2

theorem lstrip_of_front (u t : List Char) (hpre : u <+: t)
    (h : lstripChars t = t) : lstripChars u = u := by
  cases u with
  | nil => rfl
  | cons c u2 =>
    obtain ⟨s, hs⟩ := hpre
    by_cases hc : isSpaceChar c = true
    · exfalso
      have ht : t = c :: (u2 ++ s) := by rw [← hs]; rfl
      have hdrop : lstripChars t = lstripChars (u2 ++ s) := by
        rw [ht]
        simp [lstripChars, List.dropWhile_cons, hc]
      have hlen : (lstripChars (u2 ++ s)).length ≤ (u2 ++ s).length :=
        (List.dropWhile_suffix isSpaceChar).length_le
      rw [← hdrop, h, ht] at hlen
      simp at hlen
    · simp [lstripChars, List.dropWhile_cons, hc]

theorem strip_idem (s : List Char) : stripChars (stripChars s) = stripChars s := by
  unfold stripChars
  have h1 : lstripChars (lstripChars s) = lstripChars s := lstrip_idem s
  have h2 : lstripChars (rstripChars (lstripChars s)) = rstripChars (lstripChars s) :=
    lstrip_of_front _ _ (rstrip_prefix_self (lstripChars s)) h1
  rw [h2, rstrip_idem]

theorem normalizeStr_stripped (x : List Char) :
    stripChars (normalizeStr x) = normalizeStr x := by
  unfold normalizeStr
  rw [strip_idem]

/-! ### Header-scan lemmas -/

theorem enumF_mem (k : Nat) (l : List α) (p : Nat × α) :
    p ∈ enumF k l ↔ ∃ j, p.1 = k + j ∧ l.get? j = Option.some p.2 := by
  induction l generalizing k with
  | nil => simp [enumF]
  | cons x xs ih =>
    simp only [enumF, List.mem_cons, ih (k + 1)]
    constructor
    · rintro (rfl | ⟨j, hj, hget⟩)
      · exact ⟨0, by simp⟩
      · exact ⟨j + 1, by omega, by simpa using hget⟩
    · rintro ⟨j, hj, hget⟩
      cases j with
      | zero =>
        left
        have h2 : x = p.2 := by simpa using hget
        have h1 : p.1 = k := by omega
        exact Prod.ext h1 h2.symm
      | succ j =>
        right
        exact ⟨j, by omega, by simpa using hget⟩

theorem enumF_fst_ge (k : Nat) (l : List α) :
    ∀ p ∈ enumF k l, k ≤ p.1 := by
  induction l generalizing k with
  | nil => simp [enumF]
  | cons x xs ih =>
    intro p hp
    rcases (List.mem_cons).mp hp with rfl | hp2
    · exact le_refl k
    · exact le_trans (Nat.le_succ k) (ih (k + 1) p hp2)

theorem enumF_pairwise (k : Nat) (l : List α) :
    (enumF k l).Pairwise (fun a b => a.1 < b.1) := by
  induction l generalizing k with
  | nil => exact List.Pairwise.nil
  | cons x xs ih =>
    refine List.Pairwise.cons ?_ (ih (k + 1))
    intro b hb
    exact lt_of_lt_of_le (Nat.lt_succ_self k) (enumF_fst_ge (k + 1) xs b hb)

theorem matchingRows_pairwise (marker : List Char) (rows : List (List Cell)) :
    (matchingRows marker rows).Pairwise (· < ·) := by
  unfold matchingRows
  exact List.pairwise_map.mpr
    ((enumF_pairwise 0 (rows.take 50)).filter _)

theorem mem_matchingRows (marker : List Char) (rows : List (List Cell)) (i : Nat) :
    i ∈ matchingRows marker rows ↔
      ∃ row, (rows.take 50).get? i = Option.some row
        ∧ rowMatchesMarker marker row = true := by
  unfold matchingRows
  rw [List.mem_map]
  constructor
  · rintro ⟨p, hp, rfl⟩
    rw [List.mem_filter] at hp
    obtain ⟨j, hj, hget⟩ := (enumF_mem 0 _ p).mp hp.1
    refine ⟨p.2, ?_, hp.2⟩
    have hj2 : p.1 = j := by omega
    rw [hj2]
    exact hget
  · rintro ⟨row, hget, hmatch⟩
    refine ⟨(i, row), ?_, rfl⟩
    rw [List.mem_filter]
    exact ⟨(enumF_mem 0 _ (i, row)).mpr ⟨i, by omega, hget⟩, hmatch⟩

theorem pairwise_getLast_max (l : List Nat) (a : Nat)
    (hp : l.Pairwise (· < ·)) (hl : l.getLast? = Option.some a) :
    ∀ b ∈ l, b ≤ a := by
  induction l with
  | nil => simp at hl
  | cons x xs ih =>
    intro b hb
    cases xs with
    | nil =>
      have hxa : x = a := by simpa using hl
      have hbx : b = x := by simpa using hb
      omega
    | cons y ys =>
      rw [List.getLast?_cons_cons] at hl
      rcases (List.mem_cons).mp hb with rfl | hb2
      · have hmem : a ∈ y :: ys := List.mem_of_mem_getLast? hl
        have := (List.pairwise_cons.mp hp).1 a hmem
        omega
      · exact ih (List.pairwise_cons.mp hp).2 hl b hb2

theorem headerRowIdx_mem_max (marker : List Char) (rows : List (List Cell))
    (i : Nat) (h : headerRowIdx marker rows = Option.some i) :
    i ∈ matchingRows marker rows ∧ ∀ j ∈ matchingRows marker rows, j ≤ i := by
  unfold headerRowIdx at h
  exact ⟨List.mem_of_mem_getLast? h,
    pairwise_getLast_max _ i (matchingRows_pairwise marker rows) h⟩

/-! ### Loop-state lemmas -/

theorem mem_listJoinMap (f : α → List β) (l : List α) (b : β) :
    b ∈ listJoinMap f l ↔ ∃ a ∈ l, b ∈ f a := by
  induction l with
  | nil => simp [listJoinMap]
  | cons x xs ih => simp [listJoinMap, List.mem_append, ih]

theorem listJoinMap_congr (f g : α → List β) (l : List α)
    (h : ∀ a ∈ l, f a = g a) : listJoinMap f l = listJoinMap g l := by
  induction l with
  | nil => rfl
  | cons x xs ih =>
    simp only [listJoinMap]
    rw [h x (List.mem_cons_self x xs), ih (fun a ha => h a (List.mem_cons_of_mem x ha))]

theorem listJoinMap_nil_of_all (f : α → List β) (l : List α)
    (h : ∀ a ∈ l, f a = []) : listJoinMap f l = [] := by
  induction l with
  | nil => rfl
  | cons x xs ih =>
    simp only [listJoinMap]
    rw [h x (List.mem_cons_self x xs), ih (fun a ha => h a (List.mem_cons_of_mem x ha))]
    rfl

theorem applyIssues_errors (st : VState) (ws : List (Int × Issue)) :
    (applyIssues st ws).errors = st.errors ++ ws.map Prod.snd := by
  induction ws generalizing st with
  | nil => simp [applyIssues]
  | cons w ws ih =>
    simp only [applyIssues, List.foldl_cons] at *
    rw [ih]
    simp

theorem applyIssues_valid (st : VState) (ws : List (Int × Issue)) :
    (applyIssues st ws).valid = st.valid := by
  induction ws generalizing st with
  | nil => rfl
  | cons w ws ih =>
    simp only [applyIssues, List.foldl_cons] at *
    rw [ih]

theorem applyIssues_score_le (st : VState) (ws : List (Int × Issue))
    (h : ∀ wi ∈ ws, 0 ≤ wi.1) : (applyIssues st ws).score ≤ st.score := by
  induction ws generalizing st with
  | nil => exact le_refl _
  | cons w ws ih =>
    simp only [applyIssues, List.foldl_cons] at *
    refine le_trans (ih _ (fun wi hwi => h wi (List.mem_cons_of_mem w hwi))) ?_
    have := h w (List.mem_cons_self w ws)
    simp only []
    omega

theorem runRows_errors (f : Nat × List Cell → List (Int × Issue)) (st : VState)
    (rows : List (Nat × List Cell)) :
    (runRows f st rows).errors
      = st.errors ++ listJoinMap (fun r => (f r).map Prod.snd) rows := by
  induction rows generalizing st with
  | nil => simp [runRows, listJoinMap]
  | cons r rs ih =>
    simp only [runRows, List.foldl_cons, listJoinMap] at *
    rw [ih, applyIssues_errors]
    simp

theorem runRows_valid (f : Nat × List Cell → List (Int × Issue)) (st : VState)
    (rows : List (Nat × List Cell)) : (runRows f st rows).valid = st.valid := by
  induction rows generalizing st with
  | nil => rfl
  | cons r rs ih =>
    simp only [runRows, List.foldl_cons] at *
    rw [ih, applyIssues_valid]

theorem runRows_score_le (f : Nat × List Cell → List (Int × Issue)) (st : VState)
    (rows : List (Nat × List Cell)) (h : ∀ r wi, wi ∈ f r → 0 ≤ wi.1) :
    (runRows f st rows).score ≤ st.score := by
  induction rows generalizing st with
  | nil => exact le_refl _
  | cons r rs ih =>
    simp only [runRows, List.foldl_cons] at *
    exact le_trans (ih _) (applyIssues_score_le st (f r) (h r))

/-! ### Issue-weight facts -/

theorem costIssues_wt (k : Nat) :
    ∀ r wi, wi ∈ costIssues k r → 0 ≤ wi.1 := by
  intro r wi hwi
  unfold costIssues at hwi
  split at hwi
  · rcases (List.mem_singleton).mp hwi with rfl
    norm_num
  · simp at hwi

theorem prodRowIssues_wt (cols : List (List Char)) :
    ∀ r wi, wi ∈ prodRowIssues cols r → 0 ≤ wi.1 := by
  intro r wi hwi
  unfold prodRowIssues at hwi
  obtain ⟨colName, _, hmem⟩ := (mem_listJoinMap _ _ _).mp hwi
  split at hmem
  · simp at hmem
  · split at hmem
    · rcases (List.mem_singleton).mp hmem with rfl
      norm_num
    · simp at hmem

theorem ghostIssues_wt (valid : List (List Char)) (j : Nat) :
    ∀ r wi, wi ∈ ghostIssues valid j r → 0 ≤ wi.1 := by
  intro r wi hwi
  unfold ghostIssues at hwi
  split at hwi
  · rcases (List.mem_singleton).mp hwi with rfl
    norm_num
  · simp at hwi

theorem loginIssues_wt (j : Nat) :
    ∀ r wi, wi ∈ loginIssues j r → 0 ≤ wi.1 := by
  intro r wi hwi
  unfold loginIssues at hwi
  split at hwi
  · rcases (List.mem_singleton).mp hwi with rfl
    norm_num
  · simp at hwi

/-! ### Per-block lemmas -/

theorem stockBlock_score (wb : Workbook) (st st' : VState)
    (h : stockBlock wb st = Option.some st') :
    st'.score ≤ st.score ∨ st'.score = 0 := by
  unfold stockBlock at h
  split at h
  · split at h
    · left; cases h; exact le_refl _
    · split at h
      · right; cases h; rfl
      · split at h
        · exact absurd h (by simp)
        · split at h
          · left; cases h; exact le_refl _
          · left
            cases h
            exact runRows_score_le _ _ _ (costIssues_wt _)
  · left; cases h; exact le_refl _

theorem stockBlock_skip (wb : Workbook) (st : VState)
    (h : stockSheetName ∉ get_visible_sheet_names wb) :
    stockBlock wb st = Option.some st := by
  unfold stockBlock
  rw [if_neg h]

theorem stockBlock_empty (wb : Workbook) (st : VState)
    (h : stockIsEmpty wb = true) :
    stockBlock wb st
      = Option.some { st with score := 0, errors := st.errors ++ [noStockIssue] } := by
  unfold stockIsEmpty at h
  rw [Bool.and_eq_true, decide_eq_true_eq] at h
  obtain ⟨hvis, hemp⟩ := h
  unfold stockBlock
  rw [if_pos hvis]
  cases hgc : get_clean_data wb stockSheetName stockMarkerName with
  | error e => rw [hgc] at hemp; simp at hemp
  | ok tbl =>
    rw [hgc] at hemp
    simp only [hgc]
    rw [if_pos hemp]

theorem manBlock_frame (wb : Workbook) (st st' : VState)
    (h : manBlock wb st = Option.some st') :
    st'.score = st.score ∧ st'.errors = st.errors := by
  unfold manBlock at h
  split at h
  · split at h
    · cases h; exact ⟨rfl, rfl⟩
    · split at h
      · cases h; exact ⟨rfl, rfl⟩
      · split at h
        · exact absurd h (by simp)
        · cases h; exact ⟨rfl, rfl⟩
  · cases h; exact ⟨rfl, rfl⟩

theorem manBlock_skip (wb : Workbook) (st : VState)
    (h : manSheetName ∉ get_visible_sheet_names wb) :
    manBlock wb st = Option.some st := by
  unfold manBlock
  rw [if_neg h]

theorem prodBlock_score (wb : Workbook) (st : VState) :
    (prodBlock wb st).1.score ≤ st.score ∨ (prodBlock wb st).1.score = 0 := by
  unfold prodBlock
  split
  · split
    · left; exact le_refl _
    · split
      · right; rfl
      · left
        exact runRows_score_le _ _ _ (prodRowIssues_wt _)
  · left; exact le_refl _

theorem prodBlock_valid (wb : Workbook) (st : VState) :
    (prodBlock wb st).1.valid = st.valid := by
  unfold prodBlock
  split
  · split
    · rfl
    · split
      · rfl
      · exact runRows_valid _ _ _
  · rfl

theorem prodBlock_empty (wb : Workbook) (st : VState)
    (h : prodIsEmpty wb = true) : (prodBlock wb st).1.score = 0 := by
  unfold prodIsEmpty at h
  rw [Bool.and_eq_true, decide_eq_true_eq] at h
  obtain ⟨hvis, hemp⟩ := h
  unfold prodBlock
  rw [if_pos hvis]
  cases hgc : get_clean_data wb prodSheetName prodMarkerName with
  | error e => rw [hgc] at hemp; simp at hemp
  | ok tbl =>
    rw [hgc] at hemp
    simp only [hgc]
    rw [if_pos hemp]

theorem prodBlock_errors_mem (wb : Workbook) (st : VState) :
    ∀ i ∈ (prodBlock wb st).1.errors, i ∈ st.errors ∨ i.sheet = "Products".data := by
  intro i hi
  unfold prodBlock at hi
  split at hi
  · split at hi
    · left; exact hi
    · split at hi
      · simp only [List.mem_append] at hi
        rcases hi with hi | hi
        · left; exact hi
        · right
          rcases (List.mem_singleton).mp hi with rfl
          rfl
      · rw [runRows_errors, List.mem_append] at hi
        rcases hi with hi | hi
        · left; exact hi
        · right
          obtain ⟨r, _, hmem⟩ := (mem_listJoinMap _ _ _).mp hi
          rw [List.mem_map] at hmem
          obtain ⟨wi, hwi, rfl⟩ := hmem
          unfold prodRowIssues at hwi
          obtain ⟨colName, _, hmem2⟩ := (mem_listJoinMap _ _ _).mp hwi
          split at hmem2
          · simp at hmem2
          · split at hmem2
            · rcases (List.mem_singleton).mp hmem2 with rfl
              rfl
            · simp at hmem2
  · left; exact hi

theorem recipesBlock_score (wb : Workbook) (st : VState) :
    (recipesBlock wb st).score ≤ st.score := by
  unfold recipesBlock
  split
  · split
    · exact le_refl _
    · split
      · exact le_refl _
      · split
        · exact le_refl _
        · exact runRows_score_le _ _ _ (ghostIssues_wt _ _)
  · exact le_refl _

theorem recipesBlock_of_valid_nil (wb : Workbook) (st : VState)
    (h : st.valid = []) : recipesBlock wb st = st := by
  unfold recipesBlock
  have hemp : st.valid.isEmpty = true := by rw [h]; rfl
  simp only [hemp]
  split
  · split
    · rfl
    · split
      · rfl
      · rfl
  · rfl

theorem empBlock_score (wb : Workbook) (st : VState) :
    (empBlock wb st).score ≤ st.score := by
  unfold empBlock
  split
  · split
    · exact le_refl _
    · split
      · exact le_refl _
      · exact runRows_score_le _ _ _ (loginIssues_wt _)
  · exact le_refl _

theorem empBlock_valid (wb : Workbook) (st : VState) :
    (empBlock wb st).valid = st.valid := by
  unfold empBlock
  split
  · split
    · rfl
    · split
      · rfl
      · exact runRows_valid _ _ _
  · rfl

theorem empBlock_errors_mem (wb : Workbook) (st : VState) :
    ∀ i ∈ (empBlock wb st).errors, i ∈ st.errors ∨ i.sheet = "Employees".data := by
  intro i hi
  unfold empBlock at hi
  split at hi
  · split at hi
    · left; exact hi
    · split at hi
      · left; exact hi
      · rw [runRows_errors, List.mem_append] at hi
        rcases hi with hi | hi
        · left; exact hi
        · right
          obtain ⟨r, _, hmem⟩ := (mem_listJoinMap _ _ _).mp hi
          rw [List.mem_map] at hmem
          obtain ⟨wi, hwi, rfl⟩ := hmem
          unfold loginIssues at hwi
          split at hwi
          · rcases (List.mem_singleton).mp hwi with rfl
            rfl
          · simp at hwi
  · left; exact hi

/-! ### Claim theorems -/

/-- C2: for every sheet grid and marker phrase, the match list of the
header scan contains exactly the indices (within the first 50 rows) of rows
holding the marker as a case-insensitive substring of a
whitespace-collapsed, trimmed cell; when no row matches the resolver
yields no index and `get_clean_data` fails with the header-not-found
error; when rows match, the resolved index is a matching index that is
maximal, i.e. the last of `i1 < i2 < ... < ik`. -/
theorem header_scan_selects_last (marker : List Char) (rows : List (List Cell))
    (sh : Sheet) :
    (∀ i, i ∈ matchingRows marker rows ↔
        ∃ row, (rows.take 50).get? i = Option.some row
          ∧ rowMatchesMarker marker row = true)
      ∧ (matchingRows marker rows = [] → headerRowIdx marker rows = Option.none)
      ∧ (∀ i, headerRowIdx marker rows = Option.some i →
          i ∈ matchingRows marker rows ∧ ∀ j ∈ matchingRows marker rows, j ≤ i)
      ∧ (matchingRows marker sh.rows = [] →
          loadTable sh marker = Except.error (headerErr marker)) := by
  refine ⟨mem_matchingRows marker rows, ?_, headerRowIdx_mem_max marker rows, ?_⟩
  · intro h
    unfold headerRowIdx
    rw [h]
    rfl
  · intro h
    have hnone : headerRowIdx marker sh.rows = Option.none := by
      unfold headerRowIdx
      rw [h]
      rfl
    unfold loadTable
    rw [hnone]

/-- C2 witness: on a grid with marker occurrences at rows 0 and 2 the
resolver returns 2, and 2 is a genuine match. -/
theorem header_scan_selects_last_witness :
    2 ∈ matchingRows prodMarkerName headerDemoRows :=
  ((header_scan_selects_last prodMarkerName headerDemoRows sheetNoTarget).2.2.1
    2 (by decide)).1

/-- C4 counterexample: normalization is not idempotent.  Removing the
`(MAN)` tag from `(RA(MAN)W)` splices together a fresh `(RAW)` tag, so
the first pass returns `(RAW)` and a second pass erases it. -/
theorem normalize_idempotence_cex :
    normalizeStr (normalizeStr "(RA(MAN)W)".data)
      ≠ normalizeStr "(RA(MAN)W)".data := by decide

/-- C4 amended: normalization is idempotent on every input whose
normalized form contains no further case-insensitive occurrence of the
`(RAW)` or `(MAN)` tag — in particular on the empty string and on
already-normalized tag-free identifiers. -/
theorem normalize_idempotent_of_tag_free (x : List Char)
    (h1 : containsW eqCI rawTagStr (normalizeStr x) = false)
    (h2 : containsW eqCI manTagStr (normalizeStr x) = false) :
    normalizeStr (normalizeStr x) = normalizeStr x := by
  have hy : stripChars (normalizeStr x) = normalizeStr x := normalizeStr_stripped x
  calc normalizeStr (normalizeStr x)
      = stripChars (subAll eqCI manTagStr
          (subAll eqCI rawTagStr (stripChars (normalizeStr x)))) := rfl
    _ = stripChars (subAll eqCI manTagStr
          (subAll eqCI rawTagStr (normalizeStr x))) := by rw [hy]
    _ = stripChars (subAll eqCI manTagStr (normalizeStr x)) := by
          rw [subAll_of_not_contains _ _ _ h1]
    _ = stripChars (normalizeStr x) := by
          rw [subAll_of_not_contains _ _ _ h2]
    _ = normalizeStr x := hy

/-- C4 witness: `Tomato (RAW)` normalizes to the tag-free `Tomato`, and
there a second normalization changes nothing. -/
theorem normalize_idempotent_witness :
    normalizeStr (normalizeStr "Tomato (RAW)".data)
      = normalizeStr "Tomato (RAW)".data :=
  normalize_idempotent_of_tag_free "Tomato (RAW)".data (by decide) (by decide)

/-- The boolean row filter, spelled out as a proposition. -/
theorem keepRow_iff (c : Cell) :
    keepRow c = true ↔
      c ≠ Cell.none ∧ stripChars (cellRaw c) ≠ []
        ∧ upperL (cellRaw c) ≠ exampleStr := by
  unfold keepRow
  simp [List.isEmpty_iff, and_assoc]

/-- C6 counterexample: a loaded table keeps a row whose identity value
is `EXAMPLES` — the source compares the uppercased, untrimmed text only
against the exact sentinel `EXAMPLE`, so neither `EXAMPLES` nor padded
variants are dropped, contradicting the claimed sentinel set. -/
theorem placeholder_examples_kept_cex :
    (get_clean_data wbExamples "S".data prodMarkerName).toOption
      = Option.some ⟨[prodMarkerName], [(2, [Cell.str "EXAMPLES".data])]⟩ := by
  decide

/-- C6 amended: when an identity column resolves, a loaded row is kept
iff its identity cell is present, not whitespace-only after stripping,
and its uppercased (untrimmed) text differs from the exact sentinel
`EXAMPLE`; rows holding `EXAMPLES` or padded variants are kept. -/
theorem row_filter_characterization (marker : List Char)
    (cols : List (List Char)) (dataRows : List (Nat × List Cell))
    (j : Nat) (r : Nat × List Cell)
    (hj : cols.findIdx? (fun c => containsW eqCI marker c) = Option.some j) :
    r ∈ filterRows marker cols dataRows ↔
      r ∈ dataRows ∧ cellAtIdx r.2 j ≠ Cell.none
        ∧ stripChars (cellRaw (cellAtIdx r.2 j)) ≠ []
        ∧ upperL (cellRaw (cellAtIdx r.2 j)) ≠ exampleStr := by
  unfold filterRows
  rw [hj, List.mem_filter, keepRow_iff]

/-- C6 witness: on a concrete table, `EXAMPLES` (row 2) passes the
filter while the sentinel row is the one that is dropped. -/
theorem row_filter_characterization_witness :
    (2, [Cell.str "EXAMPLES".data]) ∈ filterRows prodMarkerName [prodMarkerName] demoDataRows ↔
      (2, [Cell.str "EXAMPLES".data]) ∈ demoDataRows
        ∧ cellAtIdx [Cell.str "EXAMPLES".data] 0 ≠ Cell.none
        ∧ stripChars (cellRaw (cellAtIdx [Cell.str "EXAMPLES".data] 0)) ≠ []
        ∧ upperL (cellRaw (cellAtIdx [Cell.str "EXAMPLES".data] 0)) ≠ exampleStr :=
  row_filter_characterization prodMarkerName [prodMarkerName] demoDataRows 0
    (2, [Cell.str "EXAMPLES".data]) (by decide)

/-- C9: when the reloaded column names contain no case-insensitive
occurrence of the marker, `get_clean_data` performs no row filtering at
all — every raw row below the header is returned (placeholder and empty
identity rows included) and loading still succeeds. -/
theorem no_target_no_filter (sh : Sheet) (marker : List Char) (h : Nat)
    (tbl : Table)
    (hh : headerRowIdx marker sh.rows = Option.some h)
    (hok : loadTable sh marker = Except.ok tbl)
    (hnone : tbl.cols.findIdx? (fun c => containsW eqCI marker c) = Option.none) :
    tbl.rows = enumData h sh.rows := by
  unfold loadTable at hok
  rw [hh] at hok
  cases hok
  unfold filterRows
  rw [hnone]

/-- C9 witness: a header cell matching the marker only after whitespace
collapse leaves no marker-bearing column, so the `EXAMPLE` row and the
empty row are both retained. -/
theorem no_target_no_filter_witness :
    tblNoTarget.rows = enumData 0 sheetNoTarget.rows :=
  no_target_no_filter sheetNoTarget recMarkerName 0 tblNoTarget
    (by decide) (by decide) (by decide)

/-- C1 counterexample: with an empty valid-name universe, the dependent
row `Flour` is non-empty, non-placeholder, normalizes to itself and is
absent from the (empty) universe, yet the run emits no issue at all —
the ghost loop is guarded by `valid_ingredients_set` being non-empty,
contradicting the claim that an empty universe flags every dependent
identifier. -/
theorem ghost_empty_universe_cex :
    afterSources wbRecOnly = Option.some initState
      ∧ (get_clean_data wbRecOnly recSheetName recMarkerName).toOption.map Table.rows
          = Option.some [(2, [Cell.str "Flour".data])]
      ∧ normalize_name (Cell.str "Flour".data) = "Flour".data
      ∧ (runVerifier wbRecOnly).map Report.errors = Option.some [] := by
  refine ⟨by decide, by decide, by decide, by decide⟩

/-- C1 amended: for every loaded recipes table row, a ghost-reference
Critical issue is emitted iff the valid-name universe is non-empty, the
normalized reference is non-empty, and the normalized reference is
absent from the universe; with an empty universe the check is skipped
wholesale, and the emptiness/placeholder test acts on the normalized
text (rows whose raw identity was blank or the sentinel were already
dropped by loading). -/
theorem ghost_reference_amended (wb : Workbook) (st : VState) (tbl : Table)
    (j : Nat)
    (hvis : recSheetName ∈ get_visible_sheet_names wb)
    (hok : get_clean_data wb recSheetName recMarkerName = Except.ok tbl)
    (hj : resolveIngColIdx tbl.cols = Option.some j) :
    (recipesBlock wb st).errors = st.errors
      ++ (if st.valid.isEmpty then []
          else listJoinMap (fun r =>
            if normalize_name (cellAtIdx r.2 j) ≠ []
                ∧ normalize_name (cellAtIdx r.2 j) ∉ st.valid
            then [ghostIssueOf r.1 (cellAtIdx r.2 j)] else []) tbl.rows) := by
  unfold recipesBlock
  rw [if_pos hvis]
  simp only [hok, hj]
  by_cases hemp : st.valid.isEmpty = true
  · rw [if_pos hemp, if_pos hemp]
    simp
  · rw [if_neg hemp, if_neg hemp, runRows_errors]
    congr 1
    apply listJoinMap_congr
    intro r _
    unfold ghostIssues
    split
    · rfl
    · rfl

/-- C1 witness: against the universe `{Flour}`, the loaded ghost table
produces exactly one ghost issue — `Sugar` is flagged while
`Flour (RAW)` normalizes into the universe. -/
theorem ghost_reference_amended_witness :
    (recipesBlock wbGhost stWithFlour).errors = stWithFlour.errors
      ++ (if stWithFlour.valid.isEmpty then []
          else listJoinMap (fun r =>
            if normalize_name (cellAtIdx r.2 0) ≠ []
                ∧ normalize_name (cellAtIdx r.2 0) ∉ stWithFlour.valid
            then [ghostIssueOf r.1 (cellAtIdx r.2 0)] else []) tblRecGhost.rows) :=
  ghost_reference_amended wbGhost stWithFlour tblRecGhost 0
    (by decide) (by decide) (by decide)

/-- C8 counterexample: the trusted stock sheet exists, holds `Flour`,
and is hidden; the dependent recipes row references `Flour`, the
universe stays empty, and no ghost issue is reported — contradicting
the claim that such an identifier is still flagged. -/
theorem hidden_sheet_ghost_cex :
    (wbHiddenStock.filter (fun s => !s.visible)).map Sheet.name = [stockSheetName]
      ∧ (get_clean_data wbHiddenStock recSheetName recMarkerName).toOption.map Table.rows
          = Option.some [(2, [Cell.str "Flour".data])]
      ∧ afterSources wbHiddenStock = Option.some initState
      ∧ (runVerifier wbHiddenStock).map Report.errors = Option.some [] := by
  refine ⟨by decide, by decide, by decide, by decide⟩

/-- C8 amended: only visible sheets are processed — a name is listed
iff some visible sheet bears it — and when neither trusted sheet is
visible the universe stays empty and the error log of the whole run
contains no recipes (ghost) issue at all: the hidden sheet contributes
nothing, but a dependent identifier matching only it is then *not*
reported, because the empty universe skips the ghost check. -/
theorem hidden_sheets_excluded (wb : Workbook) (nm : List Char) (co : CoreOut)
    (h1 : stockSheetName ∉ get_visible_sheet_names wb)
    (h2 : manSheetName ∉ get_visible_sheet_names wb)
    (hrun : runCore wb = Option.some co) :
    (nm ∈ get_visible_sheet_names wb ↔ ∃ s ∈ wb, s.visible = true ∧ s.name = nm)
      ∧ co.st.valid = []
      ∧ co.st.errors.all (fun i => !(i.sheet == "Recipes".data)) = true := by
  have hsrc : afterSources wb = Option.some initState := by
    unfold afterSources
    rw [stockBlock_skip wb initState h1]
    exact manBlock_skip wb initState h2
  unfold runCore at hrun
  rw [hsrc] at hrun
  cases hrun
  have hv3 : (prodBlock wb initState).1.valid = [] := prodBlock_valid wb initState
  have hrec : recipesBlock wb (prodBlock wb initState).1 = (prodBlock wb initState).1 :=
    recipesBlock_of_valid_nil wb _ hv3
  refine ⟨?_, ?_, ?_⟩
  · unfold get_visible_sheet_names
    simp only [List.mem_map, List.mem_filter]
    constructor
    · rintro ⟨s, ⟨hs, hvis⟩, rfl⟩
      exact ⟨s, hs, hvis, rfl⟩
    · rintro ⟨s, hs, hvis, rfl⟩
      exact ⟨s, ⟨hs, hvis⟩, rfl⟩
  · simp only []
    rw [empBlock_valid, hrec, hv3]
  · rw [List.all_eq_true]
    intro i hi
    simp only [] at hi
    rw [hrec] at hi
    rcases empBlock_errors_mem wb _ i hi with hi2 | hsheet
    · rcases prodBlock_errors_mem wb initState i hi2 with hi3 | hsheet
      · simp [initState] at hi3
      · rw [Bool.not_eq_true']
        rw [beq_eq_false_iff_ne]
        rw [hsheet]
        decide
    · rw [Bool.not_eq_true']
      rw [beq_eq_false_iff_ne]
      rw [hsheet]
      decide

/-- C8 witness: on the hidden-stock workbook the run core succeeds with
an empty universe. -/
theorem hidden_sheets_excluded_witness :
    (⟨⟨100, [], []⟩, Option.none, Option.none⟩ : CoreOut).st.valid = [] :=
  (hidden_sheets_excluded wbHiddenStock stockSheetName
    ⟨⟨100, [], []⟩, Option.none, Option.none⟩
    (by decide) (by decide) (by decide)).2.1

/-- C5 counterexample: the login code `12a` contains a non-digit, yet
the emitted issue is a Warning with the fixed advice `Must be 4 digits`
— not a Critical issue, and no zero-padded suggestion is computed for
any code. -/
theorem login_code_cex :
    (runVerifier wbEmp).map (fun r => r.errors.map (fun i => (i.itype, i.fix)))
      = Option.some [(warningStr, "Must be 4 digits".data)] := by decide

/-- C5 amended: every login code failing the check — after stripping
and deleting every `.0` occurrence, the code is not all-digits or is
shorter than 4 — produces exactly one issue, and every produced issue
is a Warning carrying the constant advice `Must be 4 digits`; non-digit
codes are not escalated to Critical and no padded suggestion exists. -/
theorem login_code_check (wb : Workbook) (st : VState) (tbl : Table) (j : Nat)
    (hvis : empSheetName ∈ get_visible_sheet_names wb)
    (hok : get_clean_data wb empSheetName empMarkerName = Except.ok tbl)
    (hj : tbl.cols.findIdx? (fun c => c == loginColName) = Option.some j) :
    (empBlock wb st).errors = st.errors
        ++ listJoinMap (fun r =>
          if !isDigits (pinCode (cellAtIdx r.2 j))
              || (pinCode (cellAtIdx r.2 j)).length < 4
          then [pinIssueOf r.1 (pinCode (cellAtIdx r.2 j))] else []) tbl.rows
      ∧ ((empBlock wb st).errors.drop st.errors.length).all
          (fun i => i.itype == warningStr
            && i.fix == "Must be 4 digits".data) = true := by
  have hmain : (empBlock wb st).errors = st.errors
      ++ listJoinMap (fun r =>
        if !isDigits (pinCode (cellAtIdx r.2 j))
            || (pinCode (cellAtIdx r.2 j)).length < 4
        then [pinIssueOf r.1 (pinCode (cellAtIdx r.2 j))] else []) tbl.rows := by
    unfold empBlock
    rw [if_pos hvis]
    simp only [hok, hj]
    rw [runRows_errors]
    congr 1
    apply listJoinMap_congr
    intro r _
    unfold loginIssues
    split
    · rfl
    · rfl
  refine ⟨hmain, ?_⟩
  rw [hmain, List.drop_left, List.all_eq_true]
  intro i hi
  obtain ⟨r, _, hmem⟩ := (mem_listJoinMap _ _ _).mp hi
  split at hmem
  · rcases (List.mem_singleton).mp hmem with rfl
    rfl
  · simp at hmem

/-- C5 witness: on the concrete employee table every logged issue is a
Warning with the fixed advice. -/
theorem login_code_check_witness :
    ((empBlock wbEmp initState).errors.drop initState.errors.length).all
      (fun i => i.itype == warningStr
        && i.fix == "Must be 4 digits".data) = true :=
  (login_code_check wbEmp initState tblEmp 1
    (by decide) (by decide) (by decide)).2

/-- C7 counterexample: the cost text `R 25.50` is loaded verbatim and
the run reports no issue at all and full score — the source never
strips characters, never parses the remainder, and never emits a format
Warning with the stripped suggestion. -/
theorem numeric_rule_cex :
    (get_clean_data wbCost stockSheetName stockMarkerName).toOption.map Table.rows
        = Option.some [(2, [Cell.str "Flour".data, Cell.str "R 25.50".data])]
      ∧ runVerifier wbCost = Option.some ⟨100, [], []⟩ := by
  refine ⟨by decide, by decide⟩

/-- C7 amended: the Cost Price check flags exactly the rows whose cost
cell is missing (`NaN`), each as the Critical `Missing Cost Price`
issue with no computed suggestion; any present text — such as
`R 25.50` — passes without an issue. -/
theorem cost_check_only_missing (wb : Workbook) (st : VState) (tbl : Table)
    (j k : Nat)
    (hvis : stockSheetName ∈ get_visible_sheet_names wb)
    (hok : get_clean_data wb stockSheetName stockMarkerName = Except.ok tbl)
    (hne : tbl.rows.isEmpty = false)
    (hname : tbl.cols.findIdx? (fun c => c == stockMarkerName) = Option.some j)
    (hcost : tbl.cols.findIdx? (fun c => c == costPriceName) = Option.some k) :
    (stockBlock wb st).map VState.errors
      = Option.some (st.errors ++ listJoinMap (fun r =>
          if cellAtIdx r.2 k = Cell.none then [costIssueOf r.1] else [])
          tbl.rows) := by
  unfold stockBlock
  rw [if_pos hvis]
  simp only [hok]
  rw [if_neg (by simp [hne])]
  simp only [hname, hcost, Option.map]
  rw [runRows_errors]
  congr 2
  apply listJoinMap_congr
  intro r _
  unfold costIssues
  split
  · rfl
  · rfl

/-- C7 witness: on the concrete stock table with the textual cost the
check contributes no issue. -/
theorem cost_check_only_missing_witness :
    (stockBlock wbCost initState).map VState.errors
      = Option.some (initState.errors ++ listJoinMap (fun r =>
          if cellAtIdx r.2 1 = Cell.none then [costIssueOf r.1] else [])
          tblCost.rows) :=
  cost_check_only_missing wbCost initState tblCost 0 1
    (by decide) (by decide) (by decide) (by decide) (by decide)

/-- C3: every produced quality score is an integer within [0, 100], and
an empty mandatory table (stock or products) forces the final score to
0 regardless of every other check. -/
theorem quality_score_bounds (wb : Workbook) (r : Report)
    (h : runVerifier wb = Option.some r) :
    (0 ≤ r.score ∧ r.score ≤ 100)
      ∧ ((stockIsEmpty wb = true ∨ prodIsEmpty wb = true) → r.score = 0) := by
  unfold runVerifier runVerifierWith at h
  split at h
  · exact absurd h (by simp)
  · cases hrc : runCore wb with
    | none => rw [hrc] at h; exact absurd h (by simp)
    | some co =>
      rw [hrc] at h
      simp only [Option.some.injEq] at h
      subst h
      unfold runCore at hrc
      cases has : afterSources wb with
      | none => rw [has] at hrc; exact absurd hrc (by simp)
      | some st2 =>
        rw [has] at hrc
        simp only [Option.some.injEq] at hrc
        subst hrc
        unfold afterSources at has
        cases hsb : stockBlock wb initState with
        | none => rw [hsb] at has; exact absurd has (by simp)
        | some st1 =>
          rw [hsb] at has
          have hman := manBlock_frame wb st1 st2 has
          have h1 : st1.score ≤ 100 := by
            rcases stockBlock_score wb initState st1 hsb with hle | h0
            · simpa [initState] using hle
            · omega
          have h2 : st2.score ≤ 100 := by rw [hman.1]; exact h1
          have h3 : (prodBlock wb st2).1.score ≤ 100 := by
            rcases prodBlock_score wb st2 with hle | h0
            · omega
            · omega
          have h4 : (recipesBlock wb (prodBlock wb st2).1).score ≤ 100 :=
            le_trans (recipesBlock_score wb _) h3
          have h5 : (empBlock wb (recipesBlock wb (prodBlock wb st2).1)).score ≤ 100 :=
            le_trans (empBlock_score wb _) h4
          refine ⟨⟨le_max_left 0 _, max_le (by norm_num) h5⟩, ?_⟩
          intro hor
          have hle0 :
              (empBlock wb (recipesBlock wb (prodBlock wb st2).1)).score ≤ 0 := by
            have h30 : (prodBlock wb st2).1.score ≤ 0 := by
              rcases hor with hse | hpe
              · have hsb2 := stockBlock_empty wb initState hse
                rw [hsb] at hsb2
                simp only [Option.some.injEq] at hsb2
                have hst1 : st1.score = 0 := by rw [hsb2]
                have hst2 : st2.score = 0 := by rw [hman.1, hst1]
                rcases prodBlock_score wb st2 with hle | h0
                · omega
                · omega
              · have := prodBlock_empty wb st2 hpe
                omega
            have hr0 : (recipesBlock wb (prodBlock wb st2).1).score ≤ 0 :=
              le_trans (recipesBlock_score wb _) h30
            exact le_trans (empBlock_score wb _) hr0
          exact max_eq_left hle0

/-- C3 witness: the workbook whose stock table is the bare placeholder
row loads an empty stock table, and the final score is 0. -/
theorem quality_score_bounds_witness :
    (⟨0, [noStockIssue], []⟩ : Report).score = 0 :=
  (quality_score_bounds wbEmptyStock ⟨0, [noStockIssue], []⟩ (by decide)).2
    (Or.inl (by decide))

/-- C10: the logic pass is pure observation — for any two logic
functions the final score and error log of the run coincide, the
suggestions list is exactly the logic function applied to the loaded
product/modifier tables, and the run of the source instantiates the
parameterized pipeline with `check_restaurant_logic`. -/
theorem logic_pass_frame (f g : Option Table → Option Table → List LogicItem)
    (wb : Workbook) :
    (runVerifierWith f wb).map (fun r => (r.score, r.errors))
        = (runVerifierWith g wb).map (fun r => (r.score, r.errors))
      ∧ (runVerifierWith f wb).map Report.logic
          = (if (get_visible_sheet_names wb).isEmpty then Option.none
              else (runCore wb).map (fun co => f co.dfProd co.dfMod))
      ∧ runVerifier wb = runVerifierWith check_restaurant_logic wb := by
  by_cases hv : (get_visible_sheet_names wb).isEmpty = true
  · refine ⟨?_, ?_, rfl⟩
    · unfold runVerifierWith
      rw [if_pos hv, if_pos hv]
    · unfold runVerifierWith
      rw [if_pos hv, if_pos hv]
      rfl
  · refine ⟨?_, ?_, rfl⟩
    · unfold runVerifierWith
      rw [if_neg hv, if_neg hv]
      cases runCore wb <;> rfl
    · unfold runVerifierWith
      rw [if_neg hv, if_neg hv]
      cases runCore wb <;> rfl

end YocoVerifier
